import Mathlib

/-!
Shallow embedding of `src/native/compute_statistics.cc` (the whole program is
its `main`): a single sequential scan over a patient database that counts, for
each patient, the events whose decoded code string does not start with the
12-byte constant `"STANFORD_OBS"`, accumulates those per-patient counts into a
`uint32_t → uint32_t` hash map `length_counts`, and serializes that map with
nlohmann::json to an output file.

The patient database and the code dictionary come from `database.hh`, which is
code of this repository not present under `src/`; they are modelled from the
spec (§2, §6): the dictionary is an integer-to-string table whose lookup fails
on an out-of-range id, the database an ordered collection of patients, each an
ordered sequence of coded events.  Machine integers (`uint32_t`) are modelled
as `Nat` with explicit `% 2^32` at each increment.  The fallible code lookup
makes the scan return `Option`; `none` models the fail-fast abort (§7), which
in the source happens before the output `std::ofstream` is even constructed.

The debug print of patient 0's count (`std::cout << valid_events`) is a side
effect on a diagnostic channel with no influence on the aggregation state; it
is not modelled.
-/

/-- `uint32_t` modulus: increments of the per-patient counter and of the
histogram frequencies wrap modulo this value. -/
def U32 : Nat := 4294967296

/-- Code strings are byte/character sequences; `std::string_view` is modelled
as a list of characters. -/
abbrev Str := List Char

/-- Modelled from the spec (§6, `database.hh` is not under `src/`): an event
has an integer code (its other fields — timestamp, value — are unused by this
program). -/
structure Event where
  code : Nat
deriving DecidableEq

/-- Modelled from the spec (§6): a patient is an ordered sequence of events. -/
structure Patient where
  events : List Event
deriving DecidableEq

/-- Modelled from the spec (§6): the code dictionary resolves an integer code
id to a string, failing on an out-of-range id (`UnknownCodeError`, §7). -/
abbrev Dictionary := List Str

/-- Modelled from the spec (§6): the database is an ordered collection of
patients, iterated by `main` in increasing index order; `database.size()` is
the list length and `iter.get_patient i` is positional access. -/
abbrev PatientDatabase := List Patient

/-- Modelled from the spec: dictionary lookup `dict[code]`, `none` on an id
with no entry. -/
def dict_lookup (dict : Dictionary) (c : Nat) : Option Str := dict.get? c

/-- The constant `std::string_view target = "STANFORD_OBS"` of
compute_statistics.cc:19. -/
def target : Str := ['S', 'T', 'A', 'N', 'F', 'O', 'R', 'D', '_', 'O', 'B', 'S']

/-- The classifier test of compute_statistics.cc:30,
`code_str.substr(0, target.size()) != target`: true (the event is counted)
iff the decoded string truncated to the first `target.length` characters —
the whole string when it is shorter — differs from `target`.
(`std::string_view::substr(0, n)` takes `min n (length)` characters, as does
`List.take n`.) -/
def is_valid (code_str : Str) : Bool :=
  decide (code_str.take target.length ≠ target)

/-- The per-patient loop state of compute_statistics.cc:24-26: the running
`uint32_t valid_events` counter and the `bool has_ip` marker flag. -/
structure PatientScan where
  valid_events : Nat
  has_ip : Bool
deriving DecidableEq

/-- One iteration of the inner event loop (compute_statistics.cc:28-35):
decode the event's code (abort on an unknown id), bump `valid_events`
(mod 2^32, it is a `uint32_t`) when the truncated decoded string differs from
`target`, and set `has_ip` when the raw code equals the marker code 580. -/
def scan_event (dict : Dictionary) (s : PatientScan) (e : Event) :
    Option PatientScan :=
  match dict_lookup dict e.code with
  | none => none
  | some code_str =>
      some { valid_events :=
               if is_valid code_str then (s.valid_events + 1) % U32
               else s.valid_events,
             has_ip := if e.code == 580 then true else s.has_ip }

/-- The inner event loop, folded from an arbitrary starting state. -/
def scan_events (dict : Dictionary) : PatientScan → List Event → Option PatientScan
  | s, [] => some s
  | s, e :: rest =>
      match scan_event dict s e with
      | none => none
      | some s' => scan_events dict s' rest

/-- The full scan of one patient's event sequence, starting from
`valid_events = 0`, `has_ip = false` (compute_statistics.cc:24-35). -/
def scan_patient (dict : Dictionary) (p : Patient) : Option PatientScan :=
  scan_events dict ⟨0, false⟩ p.events

/-- The histogram `length_counts`: a finite map from valid-event count to
patient frequency, modelled as an association list in first-insertion order
(the iteration order of `absl::flat_hash_map` is unspecified; no claim depends
on the order, only C3 mentions it and is stated for this fixed order). -/
abbrev Hist := List (Nat × Nat)

/-- The update `length_counts[valid_events] += 1` of compute_statistics.cc:47:
`absl::flat_hash_map` default-constructs an absent value to 0, then the
`uint32_t` increment wraps mod 2^32. -/
def incr_count (h : Hist) (k : Nat) : Hist :=
  match h with
  | [] => [(k, 1)]
  | (k', v) :: t =>
      if k' = k then (k', (v + 1) % U32) :: t else (k', v) :: incr_count t k

/-- The body of the outer patient loop (compute_statistics.cc:21-48): scan the
patient's events; if that aborts, the run aborts; otherwise the dead gate
`if (false && !has_ip) continue;` (lines 38-40) would skip the histogram
update, else the patient's count bucket is incremented. -/
def process_patient (dict : Dictionary) (h : Hist) (p : Patient) : Option Hist :=
  match scan_patient dict p with
  | none => none
  | some s =>
      if false && !s.has_ip then some h
      else some (incr_count h s.valid_events)

/-- The outer patient loop from an arbitrary starting histogram. -/
def run_scan_from (dict : Dictionary) : Hist → List Patient → Option Hist
  | h, [] => some h
  | h, p :: rest =>
      match process_patient dict h p with
      | none => none
      | some h' => run_scan_from dict h' rest

/-- The whole aggregation pass of `main`: iterate patients 0..size-1 in order,
starting from an empty `length_counts`; `none` models a fail-fast abort. -/
def run_scan (dict : Dictionary) (db : PatientDatabase) : Option Hist :=
  run_scan_from dict [] db

/-- JSON values, as far as the output artifact needs them. -/
inductive Json where
  | num : Nat → Json
  | str : String → Json
  | arr : List Json → Json
  | obj : List (String × Json) → Json

/-- Modelled from nlohmann/json's documented conversions, applied to
`o << json(length_counts)` at compute_statistics.cc:50-53: a key-value
container converts to a JSON *object* only when its key type can construct the
JSON string type; `uint32_t` cannot construct `std::string`, so
`absl::flat_hash_map<uint32_t, uint32_t>` is instead converted through its
range of `std::pair<const uint32_t, uint32_t>` elements, each pair becoming a
two-element JSON array — the whole map becomes a JSON array of
`[count, frequency]` pairs (an empty map becomes the empty array). -/
def json_of_length_counts (h : Hist) : Json :=
  Json.arr (h.map (fun kv => Json.arr [Json.num kv.1, Json.num kv.2]))

/-- The layout §4.3/§6 of the spec describe for the same artifact: a JSON
object whose keys are the decimal string forms of the counts and whose values
are the integer frequencies.  Stated from the spec's words, for comparison
with `json_of_length_counts` (the layout the code produces). -/
def spec_json_of_length_counts (h : Hist) : Json :=
  Json.obj (h.map (fun kv => (toString kv.1, Json.num kv.2)))

/-- The run end-to-end: the aggregation pass followed by serialization of the
final histogram; `none` models an aborted run, which produces no output file
(the `std::ofstream` of compute_statistics.cc:50 is constructed only after the
scan loop finishes). -/
def run_and_serialize (dict : Dictionary) (db : PatientDatabase) : Option Json :=
  (run_scan dict db).map json_of_length_counts

/-- An event counts toward `valid_events` iff its code decodes successfully
and the decoded string's `target.length`-character window differs from
`target` (a failed decode aborts the run, so it counts toward nothing). -/
def event_valid (dict : Dictionary) (e : Event) : Bool :=
  match dict_lookup dict e.code with
  | none => false
  | some code_str => is_valid code_str

/-- Total patient mass of a histogram: the sum of its frequency values. -/
def hist_sum (h : Hist) : Nat := (h.map Prod.snd).sum

/-! ### Helper lemmas on the inner event loop -/

theorem scan_events_nil (dict : Dictionary) (s : PatientScan) :
    scan_events dict s [] = some s := rfl

theorem scan_events_cons (dict : Dictionary) (s : PatientScan) (e : Event)
    (rest : List Event) :
    scan_events dict s (e :: rest) =
      match scan_event dict s e with
      | none => none
      | some s' => scan_events dict s' rest := rfl

theorem scan_events_valid_count (dict : Dictionary) (evs : List Event) :
    ∀ s₀ s₁ : PatientScan, scan_events dict s₀ evs = some s₁ →
      s₀.valid_events + evs.countP (event_valid dict) < U32 →
      s₁.valid_events = s₀.valid_events + evs.countP (event_valid dict) := by
  induction evs with
  | nil =>
      intro s₀ s₁ h _
      simp only [scan_events] at h
      cases h
      simp
  | cons e t ih =>
      intro s₀ s₁ h hlt
      rw [scan_events_cons] at h
      cases hl : dict_lookup dict e.code with
      | none => simp [scan_event, hl] at h
      | some cs =>
          simp only [scan_event, hl] at h
          rw [List.countP_cons] at hlt ⊢
          have hev : event_valid dict e = is_valid cs := by
            simp [event_valid, hl]
          rw [hev] at hlt ⊢
          cases hv : is_valid cs with
          | true =>
              simp only [hv, if_true] at h hlt ⊢
              have hmod : (s₀.valid_events + 1) % U32 = s₀.valid_events + 1 :=
                Nat.mod_eq_of_lt (by omega)
              have := ih _ _ h (by simp [hmod]; omega)
              simp only [hmod] at this
              omega
          | false =>
              simp only [hv, if_false] at h hlt ⊢
              have := ih _ _ h (by simpa using hlt)
              simpa using this
  
theorem scan_events_lookups_ok (dict : Dictionary) (evs : List Event) :
    ∀ s₀ s₁ : PatientScan, scan_events dict s₀ evs = some s₁ →
      ∀ e ∈ evs, (dict_lookup dict e.code).isSome := by
  induction evs with
  | nil => intro _ _ _ e he; cases he
  | cons e t ih =>
      intro s₀ s₁ h e' he'
      rw [scan_events_cons] at h
      cases hl : dict_lookup dict e.code with
      | none => simp [scan_event, hl] at h
      | some cs =>
          simp only [scan_event, hl] at h
          rcases List.mem_cons.mp he' with rfl | hmem
          · simp [hl]
          · exact ih _ _ h e' hmem

/-! ### Helper lemmas on the histogram update -/

theorem hist_sum_nil : hist_sum [] = 0 := rfl

theorem hist_sum_cons (k v : Nat) (t : Hist) :
    hist_sum ((k, v) :: t) = v + hist_sum t := by
  simp [hist_sum]

theorem snd_le_hist_sum (h : Hist) :
    ∀ kv ∈ h, kv.2 ≤ hist_sum h := by
  induction h with
  | nil => intro kv hkv; cases hkv
  | cons hd t ih =>
      intro kv hkv
      obtain ⟨k, v⟩ := hd
      rw [hist_sum_cons]
      rcases List.mem_cons.mp hkv with rfl | hmem
      · omega
      · have := ih kv hmem; omega

theorem hist_sum_incr_count (h : Hist) (k : Nat)
    (hlt : hist_sum h + 1 < U32) :
    hist_sum (incr_count h k) = hist_sum h + 1 := by
  induction h with
  | nil => simp [incr_count, hist_sum]
  | cons hd t ih =>
      obtain ⟨k', v⟩ := hd
      rw [hist_sum_cons] at hlt
      by_cases hk : k' = k
      · have hv : (v + 1) % U32 = v + 1 := Nat.mod_eq_of_lt (by omega)
        simp [incr_count, hk, hist_sum_cons, hv]
        omega
      · simp only [incr_count, hk, if_false, hist_sum_cons]
        rw [ih (by omega)]
        omega

theorem hist_pos_incr_count (h : Hist) (k : Nat)
    (hpos : ∀ kv ∈ h, 1 ≤ kv.2) (hlt : hist_sum h + 1 < U32) :
    ∀ kv ∈ incr_count h k, 1 ≤ kv.2 := by
  induction h with
  | nil => intro kv hkv; simp [incr_count] at hkv; simp [hkv]
  | cons hd t ih =>
      obtain ⟨k', v⟩ := hd
      rw [hist_sum_cons] at hlt
      intro kv hkv
      by_cases hk : k' = k
      · simp only [incr_count, hk, if_true] at hkv
        have hv : (v + 1) % U32 = v + 1 := Nat.mod_eq_of_lt (by omega)
        rcases List.mem_cons.mp hkv with rfl | hmem
        · simp [hv]
        · exact hpos kv (List.mem_cons_of_mem _ hmem)
      · simp only [incr_count, hk, if_false] at hkv
        rcases List.mem_cons.mp hkv with rfl | hmem
        · exact hpos _ (List.mem_cons_self _ _)
        · exact ih (fun kv hkv => hpos kv (List.mem_cons_of_mem _ hkv))
            (by omega) kv hmem

theorem mem_keys_incr_count (h : Hist) (k : Nat) :
    ∀ x ∈ (incr_count h k).map Prod.fst, x ∈ h.map Prod.fst ∨ x = k := by
  induction h with
  | nil => intro x hx; simp [incr_count] at hx; simp [hx]
  | cons hd t ih =>
      obtain ⟨k', v⟩ := hd
      intro x hx
      by_cases hk : k' = k
      · simp only [incr_count, hk, if_true] at hx
        simp only [List.map_cons, List.mem_cons] at hx ⊢
        tauto
      · simp only [incr_count, hk, if_false] at hx
        simp only [List.map_cons, List.mem_cons] at hx ⊢
        rcases hx with rfl | hx
        · tauto
        · rcases ih x hx with hx' | hx' <;> tauto

theorem nodup_keys_incr_count (h : Hist) (k : Nat)
    (hnd : (h.map Prod.fst).Nodup) :
    ((incr_count h k).map Prod.fst).Nodup := by
  induction h with
  | nil => simp [incr_count]
  | cons hd t ih =>
      obtain ⟨k', v⟩ := hd
      simp only [List.map_cons, List.nodup_cons] at hnd
      by_cases hk : k' = k
      · simp only [incr_count, hk, if_true, List.map_cons, List.nodup_cons]
        exact ⟨by simpa [hk] using hnd.1, hnd.2⟩
      · simp only [incr_count, hk, if_false, List.map_cons, List.nodup_cons]
        refine ⟨fun hmem => ?_, ih hnd.2⟩
        rcases mem_keys_incr_count t k k' hmem with hx | hx
        · exact hnd.1 hx
        · exact hk hx

/-! ### Helper lemmas on the outer patient loop -/

theorem process_patient_some (dict : Dictionary) (h h' : Hist) (p : Patient)
    (hp : process_patient dict h p = some h') :
    ∃ s, scan_patient dict p = some s ∧ h' = incr_count h s.valid_events := by
  cases hs : scan_patient dict p with
  | none => simp [process_patient, hs] at hp
  | some s =>
      refine ⟨s, rfl, ?_⟩
      simp only [process_patient, hs, Bool.false_and, Bool.false_eq_true,
        if_false] at hp
      cases hp
      rfl

theorem run_scan_from_nil (dict : Dictionary) (h : Hist) :
    run_scan_from dict h [] = some h := rfl

theorem run_scan_from_cons (dict : Dictionary) (h : Hist) (p : Patient)
    (rest : List Patient) :
    run_scan_from dict h (p :: rest) =
      match process_patient dict h p with
      | none => none
      | some h' => run_scan_from dict h' rest := rfl

theorem run_scan_from_inv (dict : Dictionary) (db : List Patient) :
    ∀ h h' : Hist, run_scan_from dict h db = some h' →
      hist_sum h + db.length < U32 → (∀ kv ∈ h, 1 ≤ kv.2) →
      hist_sum h' = hist_sum h + db.length ∧ ∀ kv ∈ h', 1 ≤ kv.2 := by
  induction db with
  | nil =>
      intro h h' hr hlt hpos
      rw [run_scan_from_nil] at hr
      cases hr
      simpa using hpos
  | cons p rest ih =>
      intro h h' hr hlt hpos
      rw [run_scan_from_cons] at hr
      cases hp : process_patient dict h p with
      | none => rw [hp] at hr; cases hr
      | some h₁ =>
          rw [hp] at hr
          obtain ⟨s, _, rfl⟩ := process_patient_some dict h h₁ p hp
          simp only [List.length_cons] at hlt
          have hsum₁ : hist_sum (incr_count h s.valid_events) = hist_sum h + 1 :=
            hist_sum_incr_count h s.valid_events (by omega)
          have hpos₁ : ∀ kv ∈ incr_count h s.valid_events, 1 ≤ kv.2 :=
            hist_pos_incr_count h s.valid_events hpos (by omega)
          obtain ⟨h1, h2⟩ := ih _ _ hr (by omega) hpos₁
          rw [hsum₁] at h1
          refine ⟨?_, h2⟩
          simp only [List.length_cons]
          omega

theorem run_scan_from_nodup_keys (dict : Dictionary) (db : List Patient) :
    ∀ h h' : Hist, run_scan_from dict h db = some h' →
      (h.map Prod.fst).Nodup → (h'.map Prod.fst).Nodup := by
  induction db with
  | nil =>
      intro h h' hr hnd
      rw [run_scan_from_nil] at hr
      cases hr
      exact hnd
  | cons p rest ih =>
      intro h h' hr hnd
      rw [run_scan_from_cons] at hr
      cases hp : process_patient dict h p with
      | none => rw [hp] at hr; cases hr
      | some h₁ =>
          rw [hp] at hr
          obtain ⟨s, _, rfl⟩ := process_patient_some dict h h₁ p hp
          exact ih _ _ hr (nodup_keys_incr_count h s.valid_events hnd)

theorem run_scan_from_lookups_ok (dict : Dictionary) (db : List Patient) :
    ∀ h h' : Hist, run_scan_from dict h db = some h' →
      ∀ p ∈ db, ∀ e ∈ p.events, (dict_lookup dict e.code).isSome := by
  induction db with
  | nil => intro _ _ _ p hp; cases hp
  | cons q rest ih =>
      intro h h' hr p hp e he
      rw [run_scan_from_cons] at hr
      cases hq : process_patient dict h q with
      | none => rw [hq] at hr; cases hr
      | some h₁ =>
          rw [hq] at hr
          rcases List.mem_cons.mp hp with rfl | hmem
          · obtain ⟨s, hs, _⟩ := process_patient_some dict h h₁ p hq
            exact scan_events_lookups_ok dict p.events _ _ hs e he
          · exact ih _ _ hr p hmem e he

/-! ### Helper lemmas for the `uint32_t` wrap demonstration (claim C10) -/

theorem scan_events_replicate_X (n : Nat) :
    ∀ v : Nat, ∀ hip : Bool, v < U32 →
      scan_events [['X']] ⟨v, hip⟩ (List.replicate n ⟨0⟩) =
        some ⟨(v + n) % U32, hip⟩ := by
  induction n with
  | zero =>
      intro v hip hv
      simp [List.replicate, scan_events_nil, Nat.mod_eq_of_lt hv]
  | succ m ih =>
      intro v hip hv
      rw [List.replicate_succ, scan_events_cons]
      have hx : is_valid ['X'] = true := by decide
      simp only [scan_event, dict_lookup, List.get?, hx, if_true]
      have h580 : ((⟨0⟩ : Event).code == 580) = false := by decide
      rw [h580]
      have := ih ((v + 1) % U32) hip (Nat.mod_lt _ (by norm_num [U32]))
      simp only [Bool.false_eq_true, if_false] at this ⊢
      rw [this, Nat.mod_add_mod]
      have harith : v + 1 + m = v + (m + 1) := by omega
      rw [harith]

theorem run_scan_from_replicate_empty (n : Nat) :
    ∀ v : Nat, v < U32 →
      run_scan_from [] [(0, v)] (List.replicate n ⟨[]⟩) =
        some [(0, (v + n) % U32)] := by
  induction n with
  | zero =>
      intro v hv
      simp [List.replicate, run_scan_from_nil, Nat.mod_eq_of_lt hv]
  | succ m ih =>
      intro v hv
      rw [List.replicate_succ, run_scan_from_cons]
      have hp : process_patient [] [(0, v)] ⟨[]⟩ =
          some [(0, (v + 1) % U32)] := by
        simp [process_patient, scan_patient, scan_events, incr_count]
      simp only [hp]
      rw [ih ((v + 1) % U32) (Nat.mod_lt _ (by norm_num [U32]))]
      rw [Nat.mod_add_mod]
      have harith : v + 1 + m = v + (m + 1) := by omega
      rw [harith]

/-! ### The claims -/

/-- Claim C1: for every patient whose scan completes, the `valid_events`
count produced by the scan equals the number of events in the patient's
sequence whose decoded code string, truncated to the first `target.length`
characters (the whole string when shorter), is not equal to `target`
(`"STANFORD_OBS"`); an event whose truncated decoded string equals `target`
is not counted.  The count is exact as long as it stays below 2^32, the
range of the `uint32_t` counter (claim C10 treats the wrap). -/
theorem scan_patient_count_correct (dict : Dictionary) (p : Patient)
    (s : PatientScan) (hs : scan_patient dict p = some s)
    (hlt : p.events.countP (event_valid dict) < U32) :
    s.valid_events = p.events.countP (event_valid dict) := by
  have := scan_events_valid_count dict p.events ⟨0, false⟩ s hs
    (by simpa using hlt)
  simpa using this

/-- Witness for C1: the spec's end-to-end scenario 1 — three events decoding
to `"STANFORD_OBS_A"`, `"X"`, `"STANFORD_OBS_B"` give a valid count of 1. -/
theorem scan_patient_count_correct_witness :
    (⟨1, false⟩ : PatientScan).valid_events =
      (Patient.mk [⟨0⟩, ⟨1⟩, ⟨2⟩]).events.countP
        (event_valid [target ++ ['_', 'A'], ['X'], target ++ ['_', 'B']]) :=
  scan_patient_count_correct [target ++ ['_', 'A'], ['X'], target ++ ['_', 'B']]
    (Patient.mk [⟨0⟩, ⟨1⟩, ⟨2⟩]) ⟨1, false⟩ (by decide) (by decide)

/-- Claim C2: on every successful run the frequencies in the final histogram
sum to the number of patients in the database — each patient contributes
exactly one increment to exactly one bucket.  Stated below 2^32 patients,
where no `uint32_t` frequency can wrap (claim C10 treats the wrap). -/
theorem hist_sum_eq_patient_count (dict : Dictionary) (db : PatientDatabase)
    (h : Hist) (hr : run_scan dict db = some h) (hlt : db.length < U32) :
    hist_sum h = db.length := by
  have := run_scan_from_inv dict db [] h hr
    (by rw [hist_sum_nil]; omega) (by simp)
  rw [this.1, hist_sum_nil]
  omega

/-- Witness for C2: the spec's end-to-end scenario 2 — two patients, histogram
`{0 ↦ 1, 2 ↦ 1}`, total mass 2. -/
theorem hist_sum_eq_patient_count_witness :
    hist_sum [(0, 1), (2, 1)] =
      ([⟨[]⟩, ⟨[⟨0⟩, ⟨0⟩]⟩] : PatientDatabase).length :=
  hist_sum_eq_patient_count [['Y']] [⟨[]⟩, ⟨[⟨0⟩, ⟨0⟩]⟩] [(0, 1), (2, 1)]
    (by decide) (by decide)

/-- Counterexample to claim C3: the run over a one-patient database produces
the JSON *array* `[[0, 1]]`, and the serialized artifact is never a JSON
object of any contents — `json(length_counts)` converts the
`uint32_t`-keyed map through its range of pairs, not as an object. -/
theorem serialization_not_object_counterexample :
    run_and_serialize [] [⟨[]⟩] =
      some (Json.arr [Json.arr [Json.num 0, Json.num 1]]) ∧
    ∀ kvs : List (String × Json),
      run_and_serialize [] [⟨[]⟩] ≠ some (Json.obj kvs) := by
  refine ⟨rfl, ?_⟩
  intro kvs hkvs
  have h1 : run_and_serialize [] [⟨[]⟩] =
      some (Json.arr [Json.arr [Json.num 0, Json.num 1]]) := rfl
  rw [h1] at hkvs
  simp at hkvs

/-- Claim C3 as amended: the serialized artifact of a successful run is a
JSON *array* holding one two-element `[count, frequency]` array per distinct
observed valid-event count (counts appear as integers and each count key
occurs at most once); it is not a JSON object with string keys, because the
map's `uint32_t` keys do not satisfy the serializer's string-key
requirement. -/
theorem serialization_array_of_pairs (dict : Dictionary) (db : PatientDatabase)
    (h : Hist) (hr : run_scan dict db = some h) :
    run_and_serialize dict db =
      some (Json.arr (h.map (fun kv => Json.arr [Json.num kv.1, Json.num kv.2]))) ∧
    (h.map Prod.fst).Nodup := by
  refine ⟨?_, run_scan_from_nodup_keys dict db [] h hr (by simp)⟩
  simp [run_and_serialize, hr, json_of_length_counts]

/-- Witness for the amended C3, at a concrete one-patient run. -/
theorem serialization_array_of_pairs_witness :
    run_and_serialize [] [⟨[]⟩] =
      some (Json.arr (([(0, 1)] : Hist).map
        (fun kv => Json.arr [Json.num kv.1, Json.num kv.2]))) ∧
    (([(0, 1)] : Hist).map Prod.fst).Nodup :=
  serialization_array_of_pairs [] [⟨[]⟩] [(0, 1)] (by decide)

/-- Claim C4: the exclusion gate `if (false && !has_ip) continue;` is
unreachable — whatever the patient's `has_ip` marker flag, a successfully
scanned patient is always folded into the histogram, never skipped. -/
theorem marker_gate_unreachable (dict : Dictionary) (h : Hist) (p : Patient)
    (s : PatientScan) (hs : scan_patient dict p = some s) :
    process_patient dict h p = some (incr_count h s.valid_events) := by
  simp [process_patient, hs]

/-- Witness for C4: a patient with no marker-code event (`has_ip = false`,
the very case the gate would skip if it were reachable) is still counted. -/
theorem marker_gate_unreachable_witness :
    process_patient [['Y']] [] ⟨[⟨0⟩]⟩ =
      some (incr_count [] (⟨1, false⟩ : PatientScan).valid_events) :=
  marker_gate_unreachable [['Y']] [] ⟨[⟨0⟩]⟩ ⟨1, false⟩ (by decide)

/-- Claim C5: any decoded code string strictly shorter than `target` is
classified valid: the comparison window is the whole (shorter) string, which
can never equal the longer `target`. -/
theorem short_code_always_valid (cs : Str) (hlen : cs.length < target.length) :
    is_valid cs = true := by
  have htake : cs.take target.length = cs :=
    List.take_of_length_le (le_of_lt hlen)
  rw [is_valid, htake]
  simp only [decide_eq_true_eq]
  intro hcs
  rw [hcs] at hlen
  omega

/-- Witness for C5: the one-character string `"X"` is valid. -/
theorem short_code_always_valid_witness :
    (['X'] : Str).length < target.length ∧ is_valid ['X'] = true :=
  ⟨by decide, short_code_always_valid ['X'] (by decide)⟩

/-- Claim C6: if some event of some patient carries a code id with no
dictionary entry, the run aborts and no output artifact is produced — in the
source the output `std::ofstream` is constructed only after the scan loop, so
an aborted scan leaves no file at all, not even a partial one. -/
theorem unknown_code_aborts_run (dict : Dictionary) (db : PatientDatabase)
    (hbad : ∃ p ∈ db, ∃ e ∈ p.events, dict_lookup dict e.code = none) :
    run_and_serialize dict db = none := by
  obtain ⟨p, hp, e, he, hnone⟩ := hbad
  cases hr : run_scan dict db with
  | none => simp [run_and_serialize, hr]
  | some h =>
      have := run_scan_from_lookups_ok dict db [] h hr p hp e he
      rw [hnone] at this
      simp at this

/-- Witness for C6: an empty dictionary and one event with code 5 abort the
run with no serialized output. -/
theorem unknown_code_aborts_run_witness :
    run_and_serialize [] [⟨[⟨5⟩]⟩] = none :=
  unknown_code_aborts_run [] [⟨[⟨5⟩]⟩]
    ⟨⟨[⟨5⟩]⟩, by decide, ⟨5⟩, by decide, by decide⟩

/-- Claim C7: every frequency stored in the final histogram of a successful
run is at least 1 — a count value gets a bucket only when some patient
attains it, and no zero-frequency entry is ever created.  Stated below 2^32
patients, where no `uint32_t` frequency can wrap (claim C10 treats the
wrap). -/
theorem hist_values_positive (dict : Dictionary) (db : PatientDatabase)
    (h : Hist) (hr : run_scan dict db = some h) (hlt : db.length < U32) :
    ∀ kv ∈ h, 1 ≤ kv.2 := by
  have := run_scan_from_inv dict db [] h hr
    (by rw [hist_sum_nil]; omega) (by simp)
  exact this.2

/-- Witness for C7: in the scenario-2 histogram, the bucket `(0, 1)` holds a
positive frequency. -/
theorem hist_values_positive_witness : 1 ≤ ((0, 1) : Nat × Nat).2 :=
  hist_values_positive [['Y']] [⟨[]⟩, ⟨[⟨0⟩, ⟨0⟩]⟩] [(0, 1), (2, 1)]
    (by decide) (by decide) (0, 1) (by decide)

/-- Claim C8: the aggregation is deterministic — two successful runs over the
same database with the same dictionary produce the same histogram mapping,
hence identical serialized artifacts.  (The model fixes first-insertion
order for the hash map's unspecified iteration order, which is the claim's
"up to key ordering" allowance.) -/
theorem run_deterministic (dict : Dictionary) (db : PatientDatabase)
    (h₁ h₂ : Hist) (hr₁ : run_scan dict db = some h₁)
    (hr₂ : run_scan dict db = some h₂) :
    h₁ = h₂ ∧ json_of_length_counts h₁ = json_of_length_counts h₂ := by
  rw [hr₁] at hr₂
  cases hr₂
  exact ⟨rfl, rfl⟩

/-- Witness for C8, at a concrete one-patient run. -/
theorem run_deterministic_witness :
    ([(0, 1)] : Hist) = [(0, 1)] ∧
    json_of_length_counts [(0, 1)] = json_of_length_counts [(0, 1)] :=
  run_deterministic [['Y']] [⟨[]⟩] [(0, 1)] [(0, 1)] (by decide) (by decide)

/-- Counterexample to claim C9: for the empty database the run writes the
serialization of an empty JSON *array*, and the artifact is not a JSON
object (in particular not the empty object) — see the C3 counterexample for
why the serializer never produces an object here. -/
theorem empty_db_not_object_counterexample :
    run_and_serialize [] [] = some (Json.arr []) ∧
    ∀ kvs : List (String × Json),
      run_and_serialize [] [] ≠ some (Json.obj kvs) := by
  refine ⟨rfl, ?_⟩
  intro kvs hkvs
  have h1 : run_and_serialize [] [] = some (Json.arr []) := rfl
  rw [h1] at hkvs
  simp at hkvs

/-- Claim C9 as amended: for a database with zero patients the scan loop body
never executes, the histogram stays empty, and the run still writes the
output successfully, containing the serialization of an empty JSON array. -/
theorem empty_db_empty_array (dict : Dictionary) :
    run_scan dict [] = some [] ∧
    run_and_serialize dict [] = some (Json.arr []) :=
  ⟨rfl, rfl⟩

/-- Witness for the amended C9, at the empty dictionary. -/
theorem empty_db_empty_array_witness :
    run_scan [] [] = some [] ∧
    run_and_serialize [] [] = some (Json.arr []) :=
  empty_db_empty_array []

/-- Claim C10: the per-patient counter and the histogram frequencies are
`uint32_t` values whose increments wrap modulo 2^32: a patient with exactly
2^32 valid events scans to the wrapped count 0, and 2^32 patients falling
into one bucket wrap that bucket's frequency to 0 — the counts are bounded
by 2^32 - 1, never ever-growing. -/
theorem uint32_wrap_demonstrated :
    scan_patient [['X']] ⟨List.replicate U32 ⟨0⟩⟩ = some ⟨0, false⟩ ∧
    run_scan [] (List.replicate U32 ⟨[]⟩) = some [(0, 0)] := by
  constructor
  · show scan_events [['X']] ⟨0, false⟩ (List.replicate U32 ⟨0⟩) =
      some ⟨0, false⟩
    rw [scan_events_replicate_X U32 0 false (by norm_num [U32])]
    have hmod : (0 + U32) % U32 = 0 := by simp [Nat.mod_self]
    rw [hmod]
  · show run_scan_from [] [] (List.replicate U32 ⟨[]⟩) = some [(0, 0)]
    have hrepl : List.replicate U32 (⟨[]⟩ : Patient) =
        ⟨[]⟩ :: List.replicate 4294967295 ⟨[]⟩ := by
      rw [show U32 = 4294967295 + 1 from rfl, List.replicate_succ]
    rw [hrepl, run_scan_from_cons]
    have hp : process_patient [] [] ⟨[]⟩ = some [(0, 1)] := rfl
    simp only [hp]
    rw [run_scan_from_replicate_empty 4294967295 1 (by norm_num [U32])]
    norm_num [U32]
